import Mathlib

/-!
Verification of the RSM NextGen repository against its natural-language
specification.  The Python sources (`Home.py`, `app.py`,
`widgets/audit_risk_assessment/streamlit2.py`) are shallowly embedded as
executable Lean definitions; machine-level effects (HTTP, the `bcrypt` and
`json` libraries, the embedding endpoint) are passed in as explicit function
parameters so every definition stays a pure, total function.
-/

set_option maxHeartbeats 1000000

namespace RSM

/-! ### Python string primitives

`pyStrip`, `pyLower`, `strContains` model Python `str.strip()`,
`str.lower()` and the `in` substring operator (for the ASCII strings this
application manipulates). -/

/-- Python `str.strip()`: drop leading and trailing whitespace characters. -/
def stripChars (l : List Char) : List Char :=
  ((l.dropWhile Char.isWhitespace).reverse.dropWhile Char.isWhitespace).reverse

/-- Python `str.strip()` on strings. -/
def pyStrip (s : String) : String := String.mk (stripChars s.data)

/-- Python `str.lower()` (ASCII case folding, as used by this code base). -/
def pyLower (s : String) : String := String.mk (s.data.map Char.toLower)

/-- Boolean substring test on char lists: `pat` occurs inside `l`. -/
def hasInfix (l pat : List Char) : Bool :=
  match l with
  | [] => pat.isEmpty
  | _ :: t => pat.isPrefixOf l || hasInfix t pat

/-- Python `pat in s` substring test. -/
def strContains (s pat : String) : Bool := hasInfix s.data pat.data

/-- First index at which `pat` occurs in `l` (Python `str.find`, when found). -/
def findSubAux (pat : List Char) : List Char → Nat → Option Nat
  | [], i => if pat.isEmpty then some i else none
  | c :: t, i => if pat.isPrefixOf (c :: t) then some i else findSubAux pat t (i + 1)

/-- Python `s.find(pat)` as an `Option Nat` (`none` when `pat` is absent). -/
def findSub (l pat : List Char) : Option Nat := findSubAux pat l 0

/-! ### A model of Python/JSON values -/

/-- JSON values as produced by `resp.json()` / `json.loads`. -/
inductive JValue where
  | null : JValue
  | bool (b : Bool) : JValue
  | num (n : Int) : JValue
  | str (s : String) : JValue
  | arr (xs : List JValue) : JValue
  | obj (fields : List (String × JValue)) : JValue

namespace JValue

/-- Python truthiness of a JSON value (`if v:`). -/
def truthy : JValue → Bool
  | .null => false
  | .bool b => b
  | .num n => n ≠ 0
  | .str s => s ≠ ""
  | .arr xs => !xs.isEmpty
  | .obj fs => !fs.isEmpty

end JValue

/-- First value bound to `k` in an association list (Python `dict` lookup). -/
def lookupField : List (String × JValue) → String → Option JValue
  | [], _ => none
  | (k, v) :: rest, key => if k = key then some v else lookupField rest key

/-- Python `v.get(k)`: field lookup, raising `AttributeError` (modelled as
`Except.error`) when `v` is not a dict. -/
def getAttr (v : JValue) (k : String) : Except Unit (Option JValue) :=
  match v with
  | .obj fs => .ok (lookupField fs k)
  | _ => .error ()

/-- Python `x or dflt` applied to an optional value (`dict.get` result). -/
def pyOrElse (a : Option JValue) (dflt : JValue) : JValue :=
  match a with
  | some v => if v.truthy then v else dflt
  | none => dflt

/-- JSON string escaping as done by `json.dumps`. -/
def escapeChar (c : Char) : List Char :=
  if c = '"' then ['\\', '"']
  else if c = '\\' then ['\\', '\\']
  else if c = '\n' then ['\\', 'n']
  else if c = '\t' then ['\\', 't']
  else if c = '\r' then ['\\', 'r']
  else [c]

/-- `json.dumps` on a string payload. -/
def dumpStr (s : String) : String :=
  "\"" ++ String.mk (s.data.flatMap escapeChar) ++ "\""

mutual

/-- `json.dumps(v, ensure_ascii=False)` with the default separators. -/
def jsonDumps : JValue → String
  | .null => "null"
  | .bool true => "true"
  | .bool false => "false"
  | .num n => toString n
  | .str s => dumpStr s
  | .arr xs => "[" ++ jsonDumpsList xs ++ "]"
  | .obj fs => "\x7b" ++ jsonDumpsFields fs ++ "\x7d"

/-- Comma-joined dump of an array's elements. -/
def jsonDumpsList : List JValue → String
  | [] => ""
  | [x] => jsonDumps x
  | x :: xs => jsonDumps x ++ ", " ++ jsonDumpsList xs

/-- Comma-joined dump of an object's fields. -/
def jsonDumpsFields : List (String × JValue) → String
  | [] => ""
  | [(k, v)] => dumpStr k ++ ": " ++ jsonDumps v
  | (k, v) :: fs => dumpStr k ++ ": " ++ jsonDumps v ++ ", " ++ jsonDumpsFields fs

end

/-! ### `Home.py`: configuration constants -/

/-- `Home.py` / `app.py`: the chat-history cap `MAX_CONTEXT_MESSAGES = 12`. -/
def MAX_CONTEXT_MESSAGES : Nat := 12

/-- `Home.py`: the fixed list `DEFAULT_SIGNATURES` of placeholder phrases. -/
def DEFAULT_SIGNATURES : List String :=
  [ "Steps to Create a Compute Instance Using AzureML SDK v2",
    "TL;DR: To create an Azure Machine Learning compute instance",
    "Use the AzureML SDK v2 to define and create a compute instance" ]

/-- `Home.py`: `DISABLE_DEFAULT_FILTER = False`. -/
def DISABLE_DEFAULT_FILTER : Bool := false

/-- `Home.py` `looks_like_default`: case-insensitive substring match of any
default signature against the stripped text. -/
def looks_like_default (text : String) : Bool :=
  if DISABLE_DEFAULT_FILTER then false
  else
    let t := pyStrip text
    DEFAULT_SIGNATURES.any fun sig => strContains (pyLower t) (pyLower sig)

/-! ### `Home.py` `parse_pf_response`

The Python function duck-types its way through the response dict; any
`AttributeError` it can raise (a non-dict where `.get` is called, outside the
guarded `choices` step) is modelled as `Except.error ()`. -/

/-- The guarded `choices[0].message.content` extraction step: every exception
inside it is caught and turned into `None`. -/
def choicesContent (fs : List (String × JValue)) : Option JValue :=
  match (lookupField fs "choices").getD (.arr [.obj []]) with
  | .arr (c0 :: _) =>
    match c0 with
    | .obj cfs =>
      match pyOrElse (lookupField cfs "message") (.obj []) with
      | .obj mfs => lookupField mfs "content"
      | _ => none
    | _ => none
  | _ => none

/-- `Home.py` `parse_pf_response`: fixed-precedence extraction of the reply
text from a parsed JSON response. -/
def parse_pf_response (data : JValue) : Except Unit (Option JValue) :=
  match getAttr data "outputs" with
  | .error _ => .error ()
  | .ok outsRaw =>
    match getAttr (pyOrElse outsRaw (.obj [])) "chat_output" with
    | .error _ => .error ()
    | .ok out1 =>
      if (out1.getD .null).truthy then .ok out1
      else
        match getAttr data "chat_output" with
        | .error _ => .error ()
        | .ok out2 =>
          if (out2.getD .null).truthy then .ok out2
          else
            match getAttr (pyOrElse outsRaw (.obj [])) "output" with
            | .error _ => .error ()
            | .ok a3 =>
              match getAttr data "output" with
              | .error _ => .error ()
              | .ok b3 =>
                let out3 := if (a3.getD .null).truthy then a3 else b3
                if (out3.getD .null).truthy then .ok out3
                else
                  match data with
                  | .obj fs => .ok (choicesContent fs)
                  | _ => .ok none

/-! ### `Home.py` `get_llm_response`: candidate request shapes -/

/-- `Home.py`: `inputs_block = {"chat_input": prompt, "chat_history": history_pf}`. -/
def inputs_block (prompt : String) (history : JValue) : JValue :=
  .obj [("chat_input", .str prompt), ("chat_history", history)]

/-- `Home.py`: the ordered candidate payload list, by endpoint family. -/
def payload_attempts (is_aml : Bool) (ib msgs : JValue) : List (String × JValue) :=
  if is_aml then
    [ ("aml.input_data.inputs", .obj [("input_data", .obj [("inputs", ib)])]),
      ("aml.input_data.flat", .obj [("input_data", ib)]),
      ("aml.flat", ib),
      ("aml.openai_messages_in_input",
        .obj [("input_data", .obj [("inputs", .obj [("messages", msgs)])])]) ]
  else
    [ ("ai.inputs", .obj [("inputs", ib)]),
      ("ai.inputs.messages", .obj [("inputs", .obj [("messages", msgs)])]),
      ("ai.flat", ib) ]

/-- Outcome of one `requests.post` call: a transport failure, or an HTTP
response carrying its status, body text, and the result of `resp.json()`
(`none` when the body is not parseable JSON). -/
inductive Outcome where
  | netError (e : String) : Outcome
  | http (status : Nat) (text : String) (body : Option JValue) : Outcome

/-- Result of one `get_llm_response` run: an accepted reply, the single
exhaustion `RuntimeError`, or an uncaught exception from the duck-typed
response parsing. -/
inductive AcqResult where
  | accepted (s : String) : AcqResult
  | exhausted (msg : String) : AcqResult
  | crashed : AcqResult
deriving DecidableEq, Repr

/-- Python `f"{x}"` on `Optional[int]`. -/
def showOptNat : Option Nat → String
  | none => "None"
  | some n => toString n

/-- Python `f"{x}"` on `Optional[str]`. -/
def showOptStr : Option String → String
  | none => "None"
  | some s => s

/-- `Home.py`: the fixed prose of the exhaustion `RuntimeError`. -/
def exhaustPrefix : String :=
  "Endpoint accepted the call but appears to ignore inputs (still returns the flow default). "
    ++ "This usually means the managed online endpoint expects a different request schema. "
    ++ "Tried multiple payload shapes without success.\n\n"

/-- `Home.py`: the exhaustion error message, including the
`Last status: ...; Last body: ...` diagnostics suffix. -/
def mkExhaustMsg (lastStatus : Option Nat) (lastText : Option String) : String :=
  (exhaustPrefix ++ "Last status: ") ++ showOptNat lastStatus
    ++ ("; Last body: " ++ showOptStr lastText)

/-- The candidate loop of `Home.py` `get_llm_response`.  `net` models the
endpoint (one `Outcome` per posted payload); returns the run result together
with the number of candidates actually posted. -/
def acquireGo (net : JValue → Outcome) :
    List (String × JValue) → Option Nat → Option String → AcqResult × Nat
  | [], lastStatus, lastText => (.exhausted (mkExhaustMsg lastStatus lastText), 0)
  | (_, p) :: rest, lastStatus, _lastText =>
    match net p with
    | .netError e =>
      let r := acquireGo net rest lastStatus (some ("Network error calling LLM: " ++ e))
      (r.1, r.2 + 1)
    | .http st txt body =>
      if st ≠ 200 then
        let r := acquireGo net rest (some st) (some txt)
        (r.1, r.2 + 1)
      else
        match body with
        | none =>
          if txt ≠ "" && !looks_like_default txt then (.accepted txt, 1)
          else
            let r := acquireGo net rest (some st) (some txt)
            (r.1, r.2 + 1)
        | some data =>
          match parse_pf_response data with
          | .error _ => (.crashed, 1)
          | .ok content =>
            if (content.getD .null).truthy then
              match content with
              | some (.str s) =>
                if looks_like_default s then
                  let r := acquireGo net rest (some st) (some txt)
                  (r.1, r.2 + 1)
                else (.accepted s, 1)
              | _ => (.crashed, 1)
            else
              let candidate := jsonDumps data
              if candidate ≠ "" && !looks_like_default candidate then (.accepted candidate, 1)
              else
                let r := acquireGo net rest (some st) (some txt)
                (r.1, r.2 + 1)

/-- `Home.py` `get_llm_response`: build the family-specific candidate list
and run the acquisition loop against the endpoint `net`. -/
def get_llm_response (net : JValue → Outcome) (is_aml : Bool) (ib msgs : JValue) :
    AcqResult × Nat :=
  acquireGo net (payload_attempts is_aml ib msgs) none none

/-- Whether the loop body rejects this outcome and moves to the next
candidate (mirrors each `continue` branch of the loop). -/
def rejectsOutcome : Outcome → Bool
  | .netError _ => true
  | .http st txt body =>
    if st ≠ 200 then true
    else
      match body with
      | none => txt = "" || looks_like_default txt
      | some data =>
        match parse_pf_response data with
        | .error _ => false
        | .ok content =>
          if (content.getD .null).truthy then
            match content with
            | some (.str s) => looks_like_default s
            | _ => false
          else
            let candidate := jsonDumps data
            candidate = "" || looks_like_default candidate

/-- The `last_status` value held after processing the whole candidate list. -/
def finalStatus (net : JValue → Outcome) :
    List (String × JValue) → Option Nat → Option Nat
  | [], s => s
  | (_, p) :: rest, s =>
    finalStatus net rest (match net p with | .netError _ => s | .http st _ _ => some st)

/-- The `last_text` value held after processing the whole candidate list. -/
def finalText (net : JValue → Outcome) :
    List (String × JValue) → Option String → Option String
  | [], t => t
  | (_, p) :: rest, _t =>
    finalText net rest
      (match net p with
       | .netError e => some ("Network error calling LLM: " ++ e)
       | .http _ txt _ => some txt)

/-! ### `Home.py` / `app.py` `chat_ui`: conversation-log truncation -/

/-- A chat message `{role, content}`. -/
structure Msg where
  role : String
  content : String
deriving DecidableEq, Repr

/-- Python `xs[-n:]`: the last `n` elements. -/
def lastN (n : Nat) (xs : List Msg) : List Msg := xs.drop (xs.length - n)

/-- One chat turn of `chat_ui`: append the user message, append the
assistant reply, then truncate to the last `MAX_CONTEXT_MESSAGES` entries
when the log exceeds the cap. -/
def chatTurn (msgs : List Msg) (userText reply : String) : List Msg :=
  let m1 := msgs ++ [⟨"user", userText⟩]
  let m2 := m1 ++ [⟨"assistant", reply⟩]
  if m2.length > MAX_CONTEXT_MESSAGES then lastN MAX_CONTEXT_MESSAGES m2 else m2

/-! ### `Home.py` / `app.py` `verify_user`

`bcrypt.checkpw` is an external library call; it is passed in as a
parameter returning `Except Unit Bool`, where `Except.error ()` models the
`ValueError` it raises on a malformed stored hash. -/

/-- Lookup in a `Dict[str, β]`. -/
def lookupDict {β : Type} : List (String × β) → String → Option β
  | [], _ => none
  | (k, v) :: rest, key => if k = key then some v else lookupDict rest key

/-- `Home.py` / `app.py` `verify_user`. -/
def verify_user (checkpw : String → String → Except Unit Bool)
    (users : List (String × List (String × String)))
    (username password : String) : Bool :=
  match lookupDict users username with
  | none => false
  | some user =>
    if user.isEmpty then false
    else
      let hashed := (lookupDict user "password").getD ""
      if hashed = "" then false
      else
        match checkpw password hashed with
        | .ok b => b
        | .error _ => false

/-! ### `widgets/audit_risk_assessment/streamlit2.py`: chunking -/

/-- Word accumulator for `pyWordSplit`: walk the characters, flushing the
current (reversed) word at each whitespace run. -/
def splitWsAux : List Char → List Char → List String
  | [], [] => []
  | [], acc => [String.mk acc.reverse]
  | c :: t, acc =>
    if c.isWhitespace then
      if acc.isEmpty then splitWsAux t []
      else String.mk acc.reverse :: splitWsAux t []
    else splitWsAux t (c :: acc)

/-- Python `text.split()`: split on whitespace runs, discarding empties. -/
def pyWordSplit (text : String) : List String := splitWsAux text.data []

/-- Python `range(0, n, stride)` for `stride ≥ 1`. -/
def pyRangeStep (n stride : Nat) : List Nat :=
  (List.range ((n + stride - 1) / stride)).map (· * stride)

/-- The word windows produced by `chunk_text_words` (before joining each
window back into a string): slide a `chunk_size`-word window advancing by
`chunk_size - chunk_overlap` words, keeping non-empty segments. -/
def chunkSegs (words : List String) (chunk_size chunk_overlap : Nat) : List (List String) :=
  let stride := chunk_size - chunk_overlap
  (pyRangeStep words.length stride).filterMap fun i =>
    let seg := (words.drop i).take chunk_size
    if seg.isEmpty then none else some seg

/-- `streamlit2.py` `chunk_text_words`. -/
def chunk_text_words (text : String) (chunk_size chunk_overlap : Nat) : List String :=
  (chunkSegs (pyWordSplit text) chunk_size chunk_overlap).map fun seg => " ".intercalate seg

/-! ### `streamlit2.py` `index_documents`

`embed_texts` posts all chunk texts in one request and builds one vector per
input text; it is modelled by the parameter `emb` applied to each chunk (a
failing embedding call would propagate as a hard error and produce no
index at all, which needs no modelling for the size claim). -/

/-- The `all_chunks` / `meta` accumulation loop of `index_documents`: per
document, every chunk is appended to `all_chunks` and its `(name, ordinal)`
pair to `meta`, in order. -/
def gatherChunks : List (String × String) → Nat → Nat → List String × List (String × Nat)
  | [], _, _ => ([], [])
  | (name, text) :: rest, chunk_size, chunk_overlap =>
    let chunks := chunk_text_words text chunk_size chunk_overlap
    let g := gatherChunks rest chunk_size chunk_overlap
    (chunks ++ g.1, ((List.range chunks.length).map fun i => (name, i)) ++ g.2)

/-- `streamlit2.py` `index_documents`: returns `(index, meta, all_chunks)`,
with the FAISS index modelled as the list of vectors added to it. -/
def index_documents {α : Type} (docs : List (String × String))
    (chunk_size chunk_overlap : Nat) (emb : String → α) :
    Option (List α) × List (String × Nat) × List String :=
  let g := gatherChunks docs chunk_size chunk_overlap
  if g.1.isEmpty then (none, [], [])
  else (some (g.1.map emb), g.2, g.1)

/-! ### `streamlit2.py` `get_llm_response` (RAG widget): answer/sources split -/

/-- The split of the returned text at the first occurrence of `"\n[1]"`
(the tail of the RAG widget `get_llm_response`). -/
def splitAnswer (t : String) : String × String :=
  match findSub t.data ['\n', '[', '1', ']'] with
  | none => (t, "")
  | some i => (pyStrip (String.mk (t.data.take i)), pyStrip (String.mk (t.data.drop i)))

/-- The RAG widget response handling: the model reply is stripped and then
split into `(main_answer, sources)`. -/
def rag_split_response (content : String) : String × String :=
  splitAnswer (pyStrip content)

/-! ### `streamlit2.py`: risk coercion and validation -/

/-- `streamlit2.py` `_coerce_high_low`. -/
def _coerce_high_low (value : Option String) : String :=
  match value with
  | none => "Low"
  | some s =>
    if s = "" then "Low"
    else if strContains (pyLower (pyStrip s)) "high" then "High" else "Low"

/-- `streamlit2.py` `_coerce_yes_no`. -/
def _coerce_yes_no (value : Option String) : String :=
  match value with
  | none => "No"
  | some s =>
    if s = "" then "No"
    else if strContains (pyLower (pyStrip s)) "yes" then "Yes" else "No"

/-- The `InherentRisk` pydantic model (all fields are strings). -/
structure InherentRisk where
  risk_type : String
  Fraud_Risk_Factor : String
  Internal_Controls : String
  Likelihood : String
  Likelihood_Explanation : String
  Material_Quantitative_Impact : String
  Impact_Explanation : String
  Conclusion : String
  SR : String
deriving DecidableEq, Repr

/-- The `model_validator(mode="after")` `coerce_significant_risk`: force the
`SR` flag from the `Likelihood` and `Material_Quantitative_Impact` fields. -/
def coerce_significant_risk (r : InherentRisk) : InherentRisk :=
  if r.Likelihood = "High" ∧ r.Material_Quantitative_Impact = "High" then
    { r with SR := "SR" }
  else
    { r with SR := "No SR" }

/-! ### `streamlit2.py` `parse_risks_response`

`json.loads` is an external library call, passed in as a parameter
(`none` models `json.JSONDecodeError`).  A `ValidationError` on one item is
modelled as that item mapping to `none` (skipped); a non-dict array element
makes `item.get` raise `AttributeError`, which the Python code does not
catch, modelled as a hard `Except.error`. -/

/-- Passing `item.get(key)` into `_coerce_high_low` (typed `str | None`):
a string or missing/falsy value coerces, a truthy non-string raises. -/
def coerceHighLowJ : Option JValue → Except Unit String
  | none => .ok "Low"
  | some (.str s) => .ok (_coerce_high_low (some s))
  | some v => if v.truthy then .error () else .ok "Low"

/-- Passing `item.get(key)` into `_coerce_yes_no`. -/
def coerceYesNoJ : Option JValue → Except Unit String
  | none => .ok "No"
  | some (.str s) => .ok (_coerce_yes_no (some s))
  | some v => if v.truthy then .error () else .ok "No"

/-- Build and validate one risk record from one JSON array element:
`.error ()` models an uncaught exception (non-dict element or a truthy
non-string fed to a coercer); `.ok none` models a `ValidationError`
(skipped with a warning); `.ok (some r)` is a validated record, with the
`coerce_significant_risk` validator applied. -/
def processItem (item : JValue) : Except Unit (Option InherentRisk) :=
  match item with
  | .obj fs => do
    let fraud ← coerceYesNoJ (lookupField fs "Fraud Risk Factor?")
    let likelihood ← coerceHighLowJ (lookupField fs "Likelihood")
    let impact ← coerceHighLowJ (lookupField fs "Material Quantitative Impact?")
    let rt := lookupField fs "risk_type"
    let ic := (lookupField fs "Internal Controls").getD (.str "Not provided")
    let le := (lookupField fs "Likelihood Explanation").getD (.str "Not provided")
    let ie := (lookupField fs "Impact Explanation").getD (.str "Not provided")
    let co := (lookupField fs "Conclusion").getD (.str "Not provided")
    match rt, ic, le, ie, co with
    | some (.str rt), .str ic, .str le, .str ie, .str co =>
      .ok (some (coerce_significant_risk
        ⟨rt, fraud, ic, likelihood, le, impact, ie, co, "No SR"⟩))
    | _, _, _, _, _ => .ok none
  | _ => .error ()

/-- The per-item loop of `parse_risks_response`: skipped items are dropped,
valid ones kept in order, uncaught exceptions propagate. -/
def processItems : List JValue → Except Unit (List InherentRisk)
  | [] => .ok []
  | item :: rest => do
    let r ← processItem item
    let rs ← processItems rest
    match r with
    | some risk => pure (risk :: rs)
    | none => pure rs

/-- The code-fence stripping regex `^БТ(?:json)?\s*(.*)\s*БТ$` (DOTALL,
with БТ standing for a triple backtick) applied to `raw.strip()`: on a
match, keep group 1; otherwise keep `raw` unchanged. -/
def stripFence (s : String) : String :=
  let t := pyStrip s
  let l := t.data
  if ("```".data).isPrefixOf l then
    let r := l.drop 3
    let r := if ("json".data).isPrefixOf r then r.drop 4 else r
    let r := r.dropWhile Char.isWhitespace
    if 3 ≤ r.length ∧ ("```".data).isSuffixOf r then
      String.mk (r.take (r.length - 3))
    else s
  else s

/-- `streamlit2.py` `parse_risks_response`. -/
def parse_risks_response (loads : String → Option JValue) (raw : String) :
    Except String (List InherentRisk) :=
  let r := stripFence raw
  match loads r with
  | none => .error ("Response was not valid JSON.\n\nRaw text:\n" ++ r)
  | some data =>
    match data with
    | .arr items =>
      match processItems items with
      | .ok risks => .ok risks
      | .error _ => .error "AttributeError"
    | _ => .error "Expected a JSON array"

/-! ### Spec-side definitions

These definitions follow the specification's wording (not the code) and are
compared with the code-derived definitions above. -/

/-- Keep a value only when it is populated (truthy). -/
def truthyFilter : Option JValue → Option JValue
  | some v => if v.truthy then some v else none
  | none => none

/-- Field access `d.k` as the spec describes it: present only on objects. -/
def jpath1 (d : JValue) (k : String) : Option JValue :=
  match d with
  | .obj fs => lookupField fs k
  | _ => none

/-- Nested field access `d.k1.k2` as the spec describes it. -/
def jpath2 (d : JValue) (k1 k2 : String) : Option JValue :=
  match d with
  | .obj fs =>
    match lookupField fs k1 with
    | some (.obj fs2) => lookupField fs2 k2
    | _ => none
  | _ => none

/-- The OpenAI-style path `choices[0].message.content` as the spec
describes it. -/
def specChoicesPath (d : JValue) : Option JValue :=
  match d with
  | .obj fs =>
    match lookupField fs "choices" with
    | some (.arr (c0 :: _)) =>
      match c0 with
      | .obj cfs =>
        match lookupField cfs "message" with
        | some (.obj mfs) => lookupField mfs "content"
        | _ => none
      | _ => none
    | _ => none
  | _ => none

/-- Modelled from the spec: the five extraction fields actually present in
`parse_pf_response`, in the documented precedence order. -/
def specExtractors : List (JValue → Option JValue) :=
  [ fun d => jpath2 d "outputs" "chat_output",
    fun d => jpath1 d "chat_output",
    fun d => jpath2 d "outputs" "output",
    fun d => jpath1 d "output",
    specChoicesPath ]

/-- Modelled from the spec: the claim's extended precedence list, which also
names the generic fields `prediction`, `result`, `value`. -/
def specExtractorsClaim : List (JValue → Option JValue) :=
  specExtractors ++
    [ fun d => jpath1 d "prediction",
      fun d => jpath1 d "result",
      fun d => jpath1 d "value" ]

/-- Modelled from the spec: "extract text from the first populated field
among a fixed precedence list". -/
def firstPopulated (fs : List (JValue → Option JValue)) (d : JValue) : Option JValue :=
  match fs with
  | [] => none
  | f :: rest =>
    match f d with
    | some v => if v.truthy then some v else firstPopulated rest d
    | none => firstPopulated rest d

/-- Whether a JSON object has a given top-level key. -/
def hasTopKey (v : JValue) (k : String) : Bool :=
  match v with
  | .obj fs => fs.any fun p => p.1 = k
  | _ => false

/-! ## Supporting lemmas -/

theorem getLast?_drop_of_lt {α : Type} (l : List α) (n : Nat) (h : n < l.length) :
    (l.drop n).getLast? = l.getLast? := by
  induction l generalizing n with
  | nil => simp at h
  | cons a t ih =>
    cases n with
    | zero => simp
    | succ m =>
      have hm : m < t.length := by simpa using h
      rw [List.drop_succ_cons, ih m hm]
      cases t with
      | nil => simp at hm
      | cons b t2 => simp

theorem hasInfix_iff (l pat : List Char) : hasInfix l pat = true ↔ pat <:+: l := by
  induction l with
  | nil =>
    simp only [hasInfix, List.isEmpty_iff, List.infix_nil]
  | cons a t ih =>
    simp only [hasInfix, Bool.or_eq_true, List.isPrefixOf_iff_prefix, ih,
      List.infix_cons_iff]

theorem strContains_iff (s pat : String) : strContains s pat = true ↔ pat.data <:+: s.data :=
  hasInfix_iff _ _

theorem isWhitespace_toLower (c : Char) :
    (Char.toLower c).isWhitespace = c.isWhitespace := by
  show (let n := c.toNat; if n ≥ 65 ∧ n ≤ 90 then Char.ofNat (n + 32) else c).isWhitespace
      = c.isWhitespace
  simp only
  split
  · rename_i h
    obtain ⟨h1, h2⟩ := h
    have hb : ∀ m : Nat, 97 ≤ m → m ≤ 122 → (Char.ofNat m).isWhitespace = false := by
      intro m hm1 hm2
      interval_cases m <;> decide
    have hc : c.isWhitespace = false := by
      have e1 : c ≠ ' ' := fun hs => by rw [hs] at h1; exact absurd h1 (by decide)
      have e2 : c ≠ '\t' := fun hs => by rw [hs] at h1; exact absurd h1 (by decide)
      have e3 : c ≠ '\x0d' := fun hs => by rw [hs] at h1; exact absurd h1 (by decide)
      have e4 : c ≠ '\n' := fun hs => by rw [hs] at h1; exact absurd h1 (by decide)
      simp [Char.isWhitespace, e1, e2, e3, e4]
    rw [hb (c.toNat + 32) (by omega) (by omega), hc]
  · rfl

theorem infix_dropWhile_iff (u l : List Char) (hu : u ≠ [])
    (hws : ∀ c ∈ u, c.isWhitespace = false) :
    u <:+: l.dropWhile Char.isWhitespace ↔ u <:+: l := by
  constructor
  · intro h
    exact h.trans (List.dropWhile_suffix _).isInfix
  · intro h
    induction l with
    | nil => simpa using h
    | cons a t ih =>
      by_cases ha : a.isWhitespace
      · rw [List.dropWhile_cons, if_pos ha]
        rw [List.infix_cons_iff] at h
        rcases h with hpre | hinf
        · cases u with
          | nil => exact absurd rfl hu
          | cons x xs =>
            rw [List.cons_prefix_cons] at hpre
            have hx : x.isWhitespace = false := hws x (by simp)
            rw [hpre.1] at hx
            rw [hx] at ha
            exact absurd ha (by simp)
        · exact ih hinf
      · rw [List.dropWhile_cons, if_neg ha]
        exact h

theorem infix_stripChars_iff (u l : List Char) (hu : u ≠ [])
    (hws : ∀ c ∈ u, c.isWhitespace = false) :
    u <:+: stripChars l ↔ u <:+: l := by
  have hru : u.reverse ≠ [] := by simpa using hu
  have hrws : ∀ c ∈ u.reverse, c.isWhitespace = false := by
    intro c hc
    exact hws c (by simpa using hc)
  unfold stripChars
  have h1 : u <:+: ((l.dropWhile Char.isWhitespace).reverse.dropWhile Char.isWhitespace).reverse
      ↔ u.reverse <:+: (l.dropWhile Char.isWhitespace).reverse.dropWhile Char.isWhitespace := by
    conv_lhs => rw [← List.reverse_reverse u]
    exact List.reverse_infix
  rw [h1, infix_dropWhile_iff _ _ hru hrws, List.reverse_infix,
    infix_dropWhile_iff _ _ hu hws]

theorem stripChars_map_toLower (l : List Char) :
    stripChars (l.map Char.toLower) = (stripChars l).map Char.toLower := by
  have hcomp : (Char.isWhitespace ∘ Char.toLower) = Char.isWhitespace := by
    funext c
    exact isWhitespace_toLower c
  unfold stripChars
  rw [List.dropWhile_map, hcomp, ← List.map_reverse, List.dropWhile_map, hcomp,
    ← List.map_reverse]

/-- The key substring fact: stripping then lowercasing then testing for a
non-empty whitespace-free pattern is the same as a case-insensitive
substring test on the raw input. -/
theorem strip_lower_contains (s pat : String) (hne : pat.data ≠ [])
    (hws : ∀ c ∈ pat.data, c.isWhitespace = false) :
    (strContains (pyLower (pyStrip s)) pat = true) ↔
      pat.data <:+: s.data.map Char.toLower := by
  rw [strContains_iff]
  rw [show (pyLower (pyStrip s)).data = (stripChars s.data).map Char.toLower from rfl]
  rw [← stripChars_map_toLower]
  exact infix_stripChars_iff _ _ hne hws

theorem getAttr_orElse_empty (o : Option JValue) (k : String) :
    getAttr (pyOrElse o (.obj [])) k =
      (match o with
       | some (.obj fs2) => .ok (lookupField fs2 k)
       | some v => if v.truthy then .error () else .ok none
       | none => .ok none) := by
  rcases o with _ | v
  · rfl
  · cases v with
    | obj fs2 =>
      by_cases ht : (JValue.obj fs2).truthy
      · simp [pyOrElse, ht, getAttr]
      · have h0 : fs2 = [] := by simpa [JValue.truthy] using ht
        subst h0
        simp [pyOrElse, getAttr, lookupField, JValue.truthy]
    | null => simp [pyOrElse, getAttr, lookupField, JValue.truthy]
    | bool b =>
      by_cases ht : (JValue.bool b).truthy <;> simp [pyOrElse, ht, getAttr, lookupField]
    | num n =>
      by_cases ht : (JValue.num n).truthy <;> simp [pyOrElse, ht, getAttr, lookupField]
    | str s =>
      by_cases ht : (JValue.str s).truthy <;> simp [pyOrElse, ht, getAttr, lookupField]
    | arr xs =>
      by_cases ht : (JValue.arr xs).truthy <;> simp [pyOrElse, ht, getAttr, lookupField]

theorem jpath2_of_ok (fs : List (String × JValue)) (k1 k2 : String) (o1 : Option JValue)
    (h : getAttr (pyOrElse (lookupField fs k1) (.obj [])) k2 = .ok o1) :
    o1 = jpath2 (.obj fs) k1 k2 := by
  rw [getAttr_orElse_empty] at h
  rcases ho : lookupField fs k1 with _ | v
  · rw [ho] at h
    cases h
    simp [jpath2, ho]
  · rw [ho] at h
    cases v with
    | obj fs2 =>
      simp only [] at h
      cases h
      simp [jpath2, ho]
    | null =>
      simp [JValue.truthy] at h
      simp [jpath2, ho, ← h]
    | bool b =>
      by_cases ht : (JValue.bool b).truthy
      · simp [ht] at h
      · simp [ht] at h
        simp [jpath2, ho, ← h]
    | num n =>
      by_cases ht : (JValue.num n).truthy
      · simp [ht] at h
      · simp [ht] at h
        simp [jpath2, ho, ← h]
    | str s =>
      by_cases ht : (JValue.str s).truthy
      · simp [ht] at h
      · simp [ht] at h
        simp [jpath2, ho, ← h]
    | arr xs =>
      by_cases ht : (JValue.arr xs).truthy
      · simp [ht] at h
      · simp [ht] at h
        simp [jpath2, ho, ← h]

theorem choicesContent_eq (fs : List (String × JValue)) :
    choicesContent fs = specChoicesPath (.obj fs) := by
  unfold choicesContent specChoicesPath
  rcases hc : lookupField fs "choices" with _ | c
  · simp [hc, pyOrElse, lookupField]
  · simp only [hc, Option.getD_some]
    cases c with
    | arr xs =>
      cases xs with
      | nil => rfl
      | cons c0 rest =>
        cases c0 with
        | obj cfs =>
          rcases hm : lookupField cfs "message" with _ | m
          · simp [hm, pyOrElse, lookupField]
          · simp only [hm]
            by_cases hmt : m.truthy
            · rw [show pyOrElse (some m) (.obj []) = m from by simp [pyOrElse, hmt]]
              cases m <;> rfl
            · rw [show pyOrElse (some m) (.obj []) = .obj [] from by simp [pyOrElse, hmt]]
              cases m with
              | obj mfs =>
                have h0 : mfs = [] := by simpa [JValue.truthy] using hmt
                subst h0
                rfl
              | null => rfl
              | bool b => rfl
              | num n => rfl
              | str s => rfl
              | arr ys => rfl
        | null => rfl
        | bool b => rfl
        | num n => rfl
        | str s => rfl
        | arr ys => rfl
    | null => rfl
    | bool b => rfl
    | num n => rfl
    | str s => rfl
    | obj gs => rfl

theorem parse_pf_response_obj (fs : List (String × JValue)) :
    parse_pf_response (.obj fs) =
      match getAttr (pyOrElse (lookupField fs "outputs") (.obj [])) "chat_output" with
      | .error _ => .error ()
      | .ok out1 =>
        if (out1.getD .null).truthy then .ok out1
        else
          if ((lookupField fs "chat_output").getD .null).truthy then
            .ok (lookupField fs "chat_output")
          else
            match getAttr (pyOrElse (lookupField fs "outputs") (.obj [])) "output" with
            | .error _ => .error ()
            | .ok a3 =>
              if ((if (a3.getD .null).truthy then a3
                    else lookupField fs "output").getD .null).truthy then
                .ok (if (a3.getD .null).truthy then a3 else lookupField fs "output")
              else .ok (choicesContent fs) := rfl

theorem firstPopulated_cons_skip (f : JValue → Option JValue)
    (rest : List (JValue → Option JValue)) (d : JValue)
    (h : ∀ v, f d = some v → v.truthy = false) :
    firstPopulated (f :: rest) d = firstPopulated rest d := by
  rcases hf : f d with _ | v
  · simp [firstPopulated, hf]
  · simp [firstPopulated, hf, h v hf]

theorem firstPopulated_cons_hit (f : JValue → Option JValue)
    (rest : List (JValue → Option JValue)) (d : JValue) (v : JValue)
    (hf : f d = some v) (ht : v.truthy = true) :
    firstPopulated (f :: rest) d = some v := by
  simp [firstPopulated, hf, ht]

theorem skip_of_getD (o : Option JValue) (h : (o.getD .null).truthy = false) :
    ∀ v, o = some v → v.truthy = false := by
  rintro v rfl
  simpa using h

theorem firstPopulated_singleton (f : JValue → Option JValue) (d : JValue) :
    firstPopulated [f] d = truthyFilter (f d) := by
  rcases hf : f d with _ | v
  · simp [firstPopulated, truthyFilter, hf]
  · by_cases ht : v.truthy
    · simp [firstPopulated, truthyFilter, hf, ht]
    · simp [firstPopulated, truthyFilter, hf, ht]

/-- The precedence refinement: whenever `parse_pf_response` runs without an
uncaught exception, the truthy part of its result is exactly the
first-populated-field extraction over the five-field precedence list the
code implements. -/
theorem parse_pf_eq_firstPopulated (d : JValue) (o : Option JValue)
    (h : parse_pf_response d = .ok o) :
    truthyFilter o = firstPopulated specExtractors d := by
  cases d with
  | null => simp [parse_pf_response, getAttr] at h
  | bool b => simp [parse_pf_response, getAttr] at h
  | num n => simp [parse_pf_response, getAttr] at h
  | str s => simp [parse_pf_response, getAttr] at h
  | arr xs => simp [parse_pf_response, getAttr] at h
  | obj fs =>
    rw [parse_pf_response_obj] at h
    show truthyFilter o = firstPopulated specExtractors (.obj fs)
    rw [show specExtractors =
      [ fun d => jpath2 d "outputs" "chat_output",
        fun d => jpath1 d "chat_output",
        fun d => jpath2 d "outputs" "output",
        fun d => jpath1 d "output",
        specChoicesPath ] from rfl]
    cases hA : getAttr (pyOrElse (lookupField fs "outputs") (.obj [])) "chat_output" with
    | error e =>
      rw [hA] at h
      simp at h
    | ok out1 =>
      rw [hA] at h
      simp only [] at h
      have hout1 : out1 = jpath2 (.obj fs) "outputs" "chat_output" :=
        jpath2_of_ok fs _ _ _ hA
      by_cases ht1 : (out1.getD .null).truthy
      · rw [if_pos ht1] at h
        simp only [Except.ok.injEq] at h
        subst h
        rcases out1 with _ | v
        · simp [JValue.truthy] at ht1
        · have hv : v.truthy = true := by simpa using ht1
          rw [firstPopulated_cons_hit _ _ _ v (by rw [← hout1]) hv]
          simp [truthyFilter, hv]
      · rw [if_neg ht1] at h
        have hskip1 : firstPopulated
            ((fun d => jpath2 d "outputs" "chat_output") ::
              [fun d => jpath1 d "chat_output", fun d => jpath2 d "outputs" "output",
               fun d => jpath1 d "output", specChoicesPath]) (.obj fs) =
            firstPopulated
              [fun d => jpath1 d "chat_output", fun d => jpath2 d "outputs" "output",
               fun d => jpath1 d "output", specChoicesPath] (.obj fs) :=
          firstPopulated_cons_skip _ _ _
            (by
              intro v hv
              exact skip_of_getD out1 (by simpa using ht1) v (hout1 ▸ hv))
        rw [hskip1]
        by_cases ht2 : ((lookupField fs "chat_output").getD .null).truthy
        · rw [if_pos ht2] at h
          simp only [Except.ok.injEq] at h
          subst h
          rcases h2 : lookupField fs "chat_output" with _ | v2
          · rw [h2] at ht2
            simp [JValue.truthy] at ht2
          · rw [h2] at ht2
            have hv2 : v2.truthy = true := by simpa using ht2
            rw [firstPopulated_cons_hit _ _ _ v2 (by simpa [jpath1] using h2) hv2]
            simp [truthyFilter, h2, hv2]
        · rw [if_neg ht2] at h
          have hskip2 : firstPopulated
              ((fun d => jpath1 d "chat_output") ::
                [fun d => jpath2 d "outputs" "output", fun d => jpath1 d "output",
                 specChoicesPath]) (.obj fs) =
              firstPopulated
                [fun d => jpath2 d "outputs" "output", fun d => jpath1 d "output",
                 specChoicesPath] (.obj fs) :=
            firstPopulated_cons_skip _ _ _
              (by
                intro v hv
                exact skip_of_getD _ (by simpa using ht2) v (by simpa [jpath1] using hv))
          rw [hskip2]
          cases hB : getAttr (pyOrElse (lookupField fs "outputs") (.obj [])) "output" with
          | error e =>
            rw [hB] at h
            simp at h
          | ok a3 =>
            rw [hB] at h
            simp only [] at h
            have hout3 : a3 = jpath2 (.obj fs) "outputs" "output" :=
              jpath2_of_ok fs _ _ _ hB
            by_cases ht3 : (a3.getD .null).truthy
            · rw [if_pos ht3, if_pos (by simp [ht3])] at h
              simp only [Except.ok.injEq] at h
              subst h
              rcases a3 with _ | v3
              · simp [JValue.truthy] at ht3
              · have hv3 : v3.truthy = true := by simpa using ht3
                rw [firstPopulated_cons_hit _ _ _ v3 (by rw [← hout3]) hv3]
                simp [truthyFilter, hv3]
            · rw [if_neg ht3] at h
              have hskip3 : firstPopulated
                  ((fun d => jpath2 d "outputs" "output") ::
                    [fun d => jpath1 d "output", specChoicesPath]) (.obj fs) =
                  firstPopulated [fun d => jpath1 d "output", specChoicesPath] (.obj fs) :=
                firstPopulated_cons_skip _ _ _
                  (by
                    intro v hv
                    exact skip_of_getD a3 (by simpa using ht3) v (hout3 ▸ hv))
              rw [hskip3]
              by_cases ht4 : ((lookupField fs "output").getD .null).truthy
              · rw [if_pos ht4] at h
                simp only [Except.ok.injEq] at h
                subst h
                rcases h4 : lookupField fs "output" with _ | v4
                · rw [h4] at ht4
                  simp [JValue.truthy] at ht4
                · rw [h4] at ht4
                  have hv4 : v4.truthy = true := by simpa using ht4
                  rw [firstPopulated_cons_hit _ _ _ v4 (by simpa [jpath1] using h4) hv4]
                  simp [truthyFilter, h4, hv4]
              · rw [if_neg ht4] at h
                simp only [Except.ok.injEq] at h
                subst h
                have hskip4 : firstPopulated
                    ((fun d => jpath1 d "output") :: [specChoicesPath]) (.obj fs) =
                    firstPopulated [specChoicesPath] (.obj fs) :=
                  firstPopulated_cons_skip _ _ _
                    (by
                      intro v hv
                      exact skip_of_getD _ (by simpa using ht4) v (by simpa [jpath1] using hv))
                rw [hskip4, firstPopulated_singleton, ← choicesContent_eq]

/-! ## Claims -/

/-- **C4**: after any chat turn (user message appended, then assistant reply
appended, then the cap applied) the message log has at most
`MAX_CONTEXT_MESSAGES = 12` entries; and truncating any log longer than 12
yields exactly 12 entries whose last element is the last element of the
original log. -/
theorem chat_log_cap_and_truncation (msgs : List Msg) (u r : String)
    (xs : List Msg) (h : xs.length > MAX_CONTEXT_MESSAGES) :
    (chatTurn msgs u r).length ≤ MAX_CONTEXT_MESSAGES ∧
    (lastN MAX_CONTEXT_MESSAGES xs).length = MAX_CONTEXT_MESSAGES ∧
    (lastN MAX_CONTEXT_MESSAGES xs).getLast? = xs.getLast? := by
  refine ⟨?_, ?_, ?_⟩
  · dsimp only [chatTurn, lastN]
    split
    · rename_i hgt
      simp only [List.length_drop]
      omega
    · rename_i hle
      omega
  · simp only [lastN, List.length_drop]
    omega
  · exact getLast?_drop_of_lt xs _
      (by simp only [MAX_CONTEXT_MESSAGES] at h ⊢; omega)

/-- Witness for C4 at a concrete 13-element log. -/
theorem chat_log_cap_and_truncation_witness :
    (chatTurn ((List.range 12).map fun i => ⟨"user", toString i⟩) "u" "r").length ≤
        MAX_CONTEXT_MESSAGES ∧
    (lastN MAX_CONTEXT_MESSAGES ((List.range 13).map fun i => ⟨"user", toString i⟩)).length =
        MAX_CONTEXT_MESSAGES ∧
    (lastN MAX_CONTEXT_MESSAGES ((List.range 13).map fun i => ⟨"user", toString i⟩)).getLast? =
      ((List.range 13).map fun i => (⟨"user", toString i⟩ : Msg)).getLast? :=
  chat_log_cap_and_truncation _ "u" "r" _ (by decide)

/-- **C10**: `verify_user` is total at the public interface: it returns a
Boolean for every input, returning `false` for an unknown username, an empty
user record, a missing or empty stored password hash, and a malformed hash
(the `bcrypt` `ValueError`, modelled as `Except.error`, is caught and
converted to `false`); when the stored hash is non-empty and `bcrypt`
answers, its answer is returned unchanged. -/
theorem verify_user_total (checkpw : String → String → Except Unit Bool)
    (users : List (String × List (String × String))) (username password : String) :
    (verify_user checkpw users username password = true ∨
      verify_user checkpw users username password = false) ∧
    (lookupDict users username = none → verify_user checkpw users username password = false) ∧
    (∀ user, lookupDict users username = some user →
      (user = [] → verify_user checkpw users username password = false) ∧
      ((lookupDict user "password").getD "" = "" →
        verify_user checkpw users username password = false) ∧
      (∀ hashed, lookupDict user "password" = some hashed → hashed ≠ "" →
        (checkpw password hashed = .error () →
          verify_user checkpw users username password = false) ∧
        (∀ b, checkpw password hashed = .ok b →
          verify_user checkpw users username password = b))) := by
  refine ⟨?_, ?_, ?_⟩
  · cases verify_user checkpw users username password <;> simp
  · intro h
    simp [verify_user, h]
  · intro user hu
    refine ⟨?_, ?_, ?_⟩
    · intro h
      simp [verify_user, hu, h]
    · intro h
      by_cases he : user.isEmpty <;> simp [verify_user, hu, he, h]
    · intro hashed hp hne
      have he : user.isEmpty = false := by
        cases user with
        | nil => simp [lookupDict] at hp
        | cons a t => rfl
      constructor
      · intro herr
        simp [verify_user, hu, he, hp, hne, herr]
      · intro b hok
        simp [verify_user, hu, he, hp, hne, hok]

/-- Witness for C10: concrete runs exercising the unknown-user, empty-hash,
malformed-hash and successful-check branches. -/
theorem verify_user_total_witness :
    verify_user (fun _ _ => .ok true) [("Alice", [("password", "h")])] "Bob" "pw" = false ∧
    verify_user (fun _ _ => .ok true) [("Alice", [("password", "")])] "Alice" "pw" = false ∧
    verify_user (fun _ _ => .error ()) [("Alice", [("password", "bad")])] "Alice" "pw" = false ∧
    verify_user (fun _ _ => .ok true) [("Alice", [("password", "h")])] "Alice" "pw" = true := by
  refine ⟨?_, ?_, ?_, ?_⟩
  · exact (verify_user_total (fun _ _ => .ok true)
      [("Alice", [("password", "h")])] "Bob" "pw").2.1 (by decide)
  · exact ((verify_user_total (fun _ _ => .ok true)
      [("Alice", [("password", "")])] "Alice" "pw").2.2 [("password", "")] (by decide)).2.1
      (by decide)
  · exact (((verify_user_total (fun _ _ => .error ())
      [("Alice", [("password", "bad")])] "Alice" "pw").2.2 [("password", "bad")]
      (by decide)).2.2 "bad" (by decide) (by decide)).1 rfl
  · exact (((verify_user_total (fun _ _ => .ok true)
      [("Alice", [("password", "h")])] "Alice" "pw").2.2 [("password", "h")]
      (by decide)).2.2 "h" (by decide) (by decide)).2 true rfl

/-- `_coerce_high_low` is a case-insensitive substring test on the raw
input. -/
theorem coerce_high_low_char (s : String) :
    _coerce_high_low (some s) =
      if "high".data <:+: s.data.map Char.toLower then "High" else "Low" := by
  show (if s = "" then "Low"
    else if strContains (pyLower (pyStrip s)) "high" then "High" else "Low") = _
  by_cases he : s = ""
  · subst he
    rw [if_pos rfl, if_neg (by decide)]
  · rw [if_neg he]
    by_cases hc : strContains (pyLower (pyStrip s)) "high" = true
    · rw [if_pos hc,
        if_pos ((strip_lower_contains s "high" (by decide) (by decide)).mp hc)]
    · rw [if_neg hc, if_neg]
      intro hinf
      exact hc ((strip_lower_contains s "high" (by decide) (by decide)).mpr hinf)

/-- `_coerce_yes_no` is a case-insensitive substring test on the raw
input. -/
theorem coerce_yes_no_char (s : String) :
    _coerce_yes_no (some s) =
      if "yes".data <:+: s.data.map Char.toLower then "Yes" else "No" := by
  show (if s = "" then "No"
    else if strContains (pyLower (pyStrip s)) "yes" then "Yes" else "No") = _
  by_cases he : s = ""
  · subst he
    rw [if_pos rfl, if_neg (by decide)]
  · rw [if_neg he]
    by_cases hc : strContains (pyLower (pyStrip s)) "yes" = true
    · rw [if_pos hc,
        if_pos ((strip_lower_contains s "yes" (by decide) (by decide)).mp hc)]
    · rw [if_neg hc, if_neg]
      intro hinf
      exact hc ((strip_lower_contains s "yes" (by decide) (by decide)).mpr hinf)

/-- **C7**: `_coerce_high_low` yields `"High"` exactly when the input
contains `"high"` case-insensitively and `"Low"` otherwise (including the
missing-value case); `_coerce_yes_no` behaves analogously on `"yes"`,
defaulting to `"No"`; and the validated record's `SR` flag (after the
`coerce_significant_risk` validator) is `"SR"` iff both `Likelihood` and
`Material_Quantitative_Impact` are `"High"`, regardless of the incoming
`SR` value. -/
theorem risk_field_coercion :
    (∀ s : String,
      (_coerce_high_low (some s) = "High" ↔ "high".data <:+: s.data.map Char.toLower) ∧
      (_coerce_high_low (some s) = "Low" ↔ ¬ "high".data <:+: s.data.map Char.toLower)) ∧
    _coerce_high_low none = "Low" ∧
    _coerce_high_low (some "High likelihood") = "High" ∧
    _coerce_high_low (some "somewhat low") = "Low" ∧
    (∀ s : String,
      (_coerce_yes_no (some s) = "Yes" ↔ "yes".data <:+: s.data.map Char.toLower) ∧
      (_coerce_yes_no (some s) = "No" ↔ ¬ "yes".data <:+: s.data.map Char.toLower)) ∧
    _coerce_yes_no none = "No" ∧
    (∀ r : InherentRisk,
      ((coerce_significant_risk r).SR = "SR" ↔
        r.Likelihood = "High" ∧ r.Material_Quantitative_Impact = "High") ∧
      ((coerce_significant_risk r).SR = "SR" ∨ (coerce_significant_risk r).SR = "No SR")) := by
  refine ⟨?_, rfl, by decide, by decide, ?_, rfl, ?_⟩
  · intro s
    rw [coerce_high_low_char]
    by_cases h : "high".data <:+: s.data.map Char.toLower
    · simp [h]
    · simp [h]
  · intro s
    rw [coerce_yes_no_char]
    by_cases h : "yes".data <:+: s.data.map Char.toLower
    · simp [h]
    · simp [h]
  · intro r
    unfold coerce_significant_risk
    by_cases h : r.Likelihood = "High" ∧ r.Material_Quantitative_Impact = "High"
    · rw [if_pos h]
      simp [h]
    · rw [if_neg h]
      simp [h]

/-- **C3 counterexample**: the claim states that for the hosted-inference
family the second candidate shape is the flat body.  In the code the second
candidate is the OpenAI-style `messages` body wrapped in `inputs`: at a
concrete prompt, candidate 1 (0-based) has top-level key `inputs` and lacks
`chat_input`, while the flat body `inputs_block` has top-level key
`chat_input`.  (The flat body is candidate 2.) -/
theorem hosted_inference_order_counterexample :
    (payload_attempts false (inputs_block "p" (.arr [])) (.arr [])).length = 3 ∧
    (payload_attempts false (inputs_block "p" (.arr [])) (.arr [])).map Prod.fst =
      ["ai.inputs", "ai.inputs.messages", "ai.flat"] ∧
    ((payload_attempts false (inputs_block "p" (.arr [])) (.arr []))[1]?.map
      fun lp => hasTopKey lp.2 "inputs") = some true ∧
    ((payload_attempts false (inputs_block "p" (.arr [])) (.arr []))[1]?.map
      fun lp => hasTopKey lp.2 "chat_input") = some false ∧
    ((payload_attempts false (inputs_block "p" (.arr [])) (.arr []))[1]?.map
      fun lp => hasTopKey lp.2 "messages" ||
        (match lp.2 with
         | .obj [(_, inner)] => hasTopKey inner "messages"
         | _ => false)) = some true ∧
    hasTopKey (inputs_block "p" (.arr [])) "chat_input" = true := by
  refine ⟨rfl, rfl, rfl, rfl, rfl, rfl⟩

/-- **C3 (amended)**: for the hosted-inference family (`is_aml = false`) the
code tries exactly 3 candidate shapes, in the order: `inputs` wrapper of the
`{chat_input, chat_history}` block, then the OpenAI-style `messages` body
wrapped in `inputs`, then the flat body — and no candidate carries the
managed-compute `input_data` wrapper. -/
theorem hosted_inference_payloads (prompt : String) (hist msgs : JValue) :
    payload_attempts false (inputs_block prompt hist) msgs =
      [ ("ai.inputs", .obj [("inputs", inputs_block prompt hist)]),
        ("ai.inputs.messages", .obj [("inputs", .obj [("messages", msgs)])]),
        ("ai.flat", inputs_block prompt hist) ] ∧
    (payload_attempts false (inputs_block prompt hist) msgs).length = 3 ∧
    (payload_attempts false (inputs_block prompt hist) msgs).all
      (fun lp => !hasTopKey lp.2 "input_data") = true := by
  refine ⟨rfl, rfl, ?_⟩
  show (_ && (_ && (_ && _))) = true
  rfl

/-- **C2 counterexample**: the claim's precedence list includes the generic
fields `prediction`/`result`/`value`, and says a candidate with empty
extracted text is rejected.  On the body `{"prediction": "hello"}` the
spec-worded extractor returns `"hello"`, but the code extracts nothing —
and instead of rejecting the candidate it accepts the serialized JSON
body. -/
theorem llm_extraction_precedence_counterexample :
    parse_pf_response (.obj [("prediction", .str "hello")]) = .ok none ∧
    firstPopulated specExtractorsClaim (.obj [("prediction", .str "hello")]) =
      some (.str "hello") ∧
    (get_llm_response
        (fun _ => .http 200 "raw" (some (.obj [("prediction", .str "hello")])))
        false (inputs_block "p" (.arr [])) (.arr [])).1 =
      .accepted "\x7b\"prediction\": \"hello\"\x7d" :=
  ⟨rfl, rfl, rfl⟩

/-- **C2 (amended)**: the reply text extracted from a parsed body is the
first populated field among exactly `outputs.chat_output`, `chat_output`,
`outputs.output`, `output` and `choices[0].message.content` (no generic
`prediction`/`result`/`value` fields); a candidate whose extracted text
matches a default signature is rejected; and when no field is populated the
candidate is not rejected for emptiness: the whole body is serialized and
accepted unless that serialization matches a default signature. -/
theorem llm_extraction_precedence :
    (∀ d o, parse_pf_response d = .ok o →
      truthyFilter o = firstPopulated specExtractors d) ∧
    (∀ (net : JValue → Outcome) (l : String) (p : JValue)
        (rest : List (String × JValue)) lastS lastT txt d s,
      net p = .http 200 txt (some d) →
      parse_pf_response d = .ok (some (.str s)) → s ≠ "" →
      looks_like_default s = true →
      acquireGo net ((l, p) :: rest) lastS lastT =
        ((acquireGo net rest (some 200) (some txt)).1,
          (acquireGo net rest (some 200) (some txt)).2 + 1)) ∧
    (∀ (net : JValue → Outcome) (l : String) (p : JValue)
        (rest : List (String × JValue)) lastS lastT txt d,
      net p = .http 200 txt (some d) →
      parse_pf_response d = .ok none →
      looks_like_default (jsonDumps d) = false →
      jsonDumps d ≠ "" →
      acquireGo net ((l, p) :: rest) lastS lastT = (.accepted (jsonDumps d), 1)) := by
  refine ⟨parse_pf_eq_firstPopulated, ?_, ?_⟩
  · intro net l p rest lastS lastT txt d s hnet hp hs hd
    simp [acquireGo, hnet, hp, JValue.truthy, hs, hd]
  · intro net l p rest lastS lastT txt d hnet hp hd hne
    simp [acquireGo, hnet, hp, JValue.truthy, hd, hne]

/-- Witness for C2 (amended) at concrete bodies: a populated `chat_output`
field, a default-signature reply (rejected), and an unextractable body
(serialized and accepted). -/
theorem llm_extraction_precedence_witness :
    truthyFilter (some (.str "hi")) =
      firstPopulated specExtractors (.obj [("chat_output", .str "hi")]) ∧
    acquireGo
        (fun _ => .http 200 "b" (some (.obj [("chat_output",
          .str "Steps to Create a Compute Instance Using AzureML SDK v2")])))
        [("l", .null)] none none =
      ((acquireGo
          (fun _ => .http 200 "b" (some (.obj [("chat_output",
            .str "Steps to Create a Compute Instance Using AzureML SDK v2")])))
          [] (some 200) (some "b")).1,
        (acquireGo
          (fun _ => .http 200 "b" (some (.obj [("chat_output",
            .str "Steps to Create a Compute Instance Using AzureML SDK v2")])))
          [] (some 200) (some "b")).2 + 1) ∧
    acquireGo (fun _ => .http 200 "b" (some (.obj [("prediction", .str "hello")])))
        [("l", .null)] none none =
      (.accepted "\x7b\"prediction\": \"hello\"\x7d", 1) :=
  ⟨llm_extraction_precedence.1 (.obj [("chat_output", .str "hi")]) (some (.str "hi")) rfl,
   llm_extraction_precedence.2.1
     (fun _ => .http 200 "b" (some (.obj [("chat_output",
       .str "Steps to Create a Compute Instance Using AzureML SDK v2")])))
     "l" .null [] none none "b"
     (.obj [("chat_output",
       .str "Steps to Create a Compute Instance Using AzureML SDK v2")])
     "Steps to Create a Compute Instance Using AzureML SDK v2" rfl rfl (by decide)
     (by decide),
   llm_extraction_precedence.2.2
     (fun _ => .http 200 "b" (some (.obj [("prediction", .str "hello")])))
     "l" .null [] none none "b" (.obj [("prediction", .str "hello")]) rfl rfl (by decide)
     (by decide)⟩

theorem infix_mid (a b c : String) : b.data <:+: (a ++ b ++ c).data :=
  ⟨a.data, c.data, by simp [String.data_append]⟩

theorem infix_end (a b c d : String) : d.data <:+: (a ++ b ++ (c ++ d)).data :=
  ⟨(a ++ b ++ c).data, [], by simp [String.data_append]⟩

/-- The candidate loop, when every outcome is rejected, posts every
candidate and ends in the single exhaustion error built from the final
`last_status` / `last_text` pair. -/
theorem acquireGo_exhausts (net : JValue → Outcome) (ps : List (String × JValue))
    (lastS : Option Nat) (lastT : Option String)
    (h : ∀ lp ∈ ps, rejectsOutcome (net lp.2) = true) :
    acquireGo net ps lastS lastT =
      (.exhausted (mkExhaustMsg (finalStatus net ps lastS) (finalText net ps lastT)),
        ps.length) := by
  induction ps generalizing lastS lastT with
  | nil => rfl
  | cons lp rest ih =>
    obtain ⟨l, p⟩ := lp
    have hp : rejectsOutcome (net p) = true := h (l, p) (by simp)
    have hrest : ∀ q ∈ rest, rejectsOutcome (net q.2) = true := fun q hq =>
      h q (by simp [hq])
    cases hout : net p with
    | netError e =>
      simp only [acquireGo, hout]
      rw [ih _ _ hrest]
      simp [finalStatus, finalText, hout]
    | http st txt body =>
      rw [hout] at hp
      simp only [acquireGo, hout]
      by_cases hst : st = 200
      · subst hst
        rw [if_neg (by simp)]
        rw [rejectsOutcome.eq_def] at hp
        simp only [] at hp
        rw [if_neg (by simp)] at hp
        cases body with
        | none =>
          have hcond : (decide ¬txt = "" && !looks_like_default txt) = false := by
            rcases Bool.or_eq_true_iff.mp hp with h1 | h1
            · simp [of_decide_eq_true h1]
            · simp [h1]
          rw [hcond]
          simp only [Bool.false_eq_true, if_false]
          rw [ih _ _ hrest]
          simp [finalStatus, finalText, hout]
        | some data =>
          simp only [] at hp ⊢
          cases hpr : parse_pf_response data with
          | error e =>
            rw [hpr] at hp
            simp at hp
          | ok content =>
            rw [hpr] at hp
            simp only [] at hp ⊢
            by_cases htr : ((content.getD .null)).truthy
            · rw [if_pos htr] at hp ⊢
              cases content with
              | none => simp [JValue.truthy] at htr
              | some v =>
                cases v with
                | str s =>
                  simp only [] at hp ⊢
                  rw [hp]
                  simp only [if_true]
                  rw [ih _ _ hrest]
                  simp [finalStatus, finalText, hout]
                | null => simp at hp
                | bool b => simp at hp
                | num n => simp at hp
                | arr xs => simp at hp
                | obj gs => simp at hp
            · rw [if_neg htr] at hp ⊢
              have hcond : (decide ¬jsonDumps data = "" && !looks_like_default (jsonDumps data))
                  = false := by
                rcases Bool.or_eq_true_iff.mp hp with h1 | h1
                · simp [of_decide_eq_true h1]
                · simp [h1]
              rw [hcond]
              simp only [Bool.false_eq_true, if_false]
              rw [ih _ _ hrest]
              simp [finalStatus, finalText, hout]
      · rw [if_pos (by simpa using hst)]
        rw [ih _ _ hrest]
        simp [finalStatus, finalText, hout]

/-- **C1**: when every candidate request shape is rejected (failed HTTP,
unparseable-and-default-like, or extracted-text default-like, with the
empty-extraction serialization also default-like or empty), the acquirer
posts all configured candidates, accepts none, and produces exactly one
exhaustion error whose message contains the rendering of the last HTTP
status and the last response body. -/
theorem acquirer_exhaustion (net : JValue → Outcome) (is_aml : Bool) (ib msgs : JValue)
    (h : ∀ lp ∈ payload_attempts is_aml ib msgs, rejectsOutcome (net lp.2) = true) :
    get_llm_response net is_aml ib msgs =
      (.exhausted (mkExhaustMsg
          (finalStatus net (payload_attempts is_aml ib msgs) none)
          (finalText net (payload_attempts is_aml ib msgs) none)),
        (payload_attempts is_aml ib msgs).length) ∧
    (showOptNat (finalStatus net (payload_attempts is_aml ib msgs) none)).data <:+:
      (mkExhaustMsg (finalStatus net (payload_attempts is_aml ib msgs) none)
        (finalText net (payload_attempts is_aml ib msgs) none)).data ∧
    (showOptStr (finalText net (payload_attempts is_aml ib msgs) none)).data <:+:
      (mkExhaustMsg (finalStatus net (payload_attempts is_aml ib msgs) none)
        (finalText net (payload_attempts is_aml ib msgs) none)).data := by
  refine ⟨acquireGo_exhausts net _ none none h, ?_, ?_⟩
  · exact infix_mid (exhaustPrefix ++ "Last status: ")
      (showOptNat (finalStatus net (payload_attempts is_aml ib msgs) none))
      ("; Last body: " ++ showOptStr (finalText net (payload_attempts is_aml ib msgs) none))
  · exact infix_end (exhaustPrefix ++ "Last status: ")
      (showOptNat (finalStatus net (payload_attempts is_aml ib msgs) none))
      "; Last body: "
      (showOptStr (finalText net (payload_attempts is_aml ib msgs) none))

/-- Witness for C1: a stub endpoint answering every candidate with HTTP 500
exhausts all 3 hosted-inference candidates and raises the single
diagnostics-bearing error. -/
theorem acquirer_exhaustion_witness :
    get_llm_response (fun _ => .http 500 "oops" none) false
        (inputs_block "p" (.arr [])) (.arr []) =
      (.exhausted (mkExhaustMsg
          (finalStatus (fun _ => .http 500 "oops" none)
            (payload_attempts false (inputs_block "p" (.arr [])) (.arr [])) none)
          (finalText (fun _ => .http 500 "oops" none)
            (payload_attempts false (inputs_block "p" (.arr [])) (.arr [])) none)),
        (payload_attempts false (inputs_block "p" (.arr [])) (.arr [])).length) ∧
    (showOptNat (finalStatus (fun _ => .http 500 "oops" none)
        (payload_attempts false (inputs_block "p" (.arr [])) (.arr [])) none)).data <:+:
      (mkExhaustMsg
        (finalStatus (fun _ => .http 500 "oops" none)
          (payload_attempts false (inputs_block "p" (.arr [])) (.arr [])) none)
        (finalText (fun _ => .http 500 "oops" none)
          (payload_attempts false (inputs_block "p" (.arr [])) (.arr [])) none)).data ∧
    (showOptStr (finalText (fun _ => .http 500 "oops" none)
        (payload_attempts false (inputs_block "p" (.arr [])) (.arr [])) none)).data <:+:
      (mkExhaustMsg
        (finalStatus (fun _ => .http 500 "oops" none)
          (payload_attempts false (inputs_block "p" (.arr [])) (.arr [])) none)
        (finalText (fun _ => .http 500 "oops" none)
          (payload_attempts false (inputs_block "p" (.arr [])) (.arr [])) none)).data :=
  acquirer_exhaustion (fun _ => .http 500 "oops" none) false
    (inputs_block "p" (.arr [])) (.arr []) (by decide)

theorem gatherChunks_len (docs : List (String × String)) (cs co : Nat) :
    (gatherChunks docs cs co).2.length = (gatherChunks docs cs co).1.length := by
  induction docs with
  | nil => rfl
  | cons nt rest ih =>
    obtain ⟨name, text⟩ := nt
    simp [gatherChunks, ih]

/-- **C6**: the built index holds exactly one vector per produced chunk (the
embedding endpoint modelled as one vector per input text), the metadata and
chunk arrays have that same length, and the only indexless result is the
zero-chunk case, which returns `(none, [], [])`. -/
theorem index_documents_sizes {α : Type} (docs : List (String × String))
    (cs co : Nat) (emb : String → α) :
    (index_documents docs cs co emb = (none, [], []) ↔ (gatherChunks docs cs co).1 = []) ∧
    (∀ vs meta chunks,
      index_documents docs cs co emb = (some vs, meta, chunks) →
      vs.length = chunks.length ∧ meta.length = chunks.length ∧ chunks ≠ []) := by
  constructor
  · constructor
    · intro h
      unfold index_documents at h
      by_cases he : (gatherChunks docs cs co).1.isEmpty
      · exact List.isEmpty_iff.mp he
      · rw [if_neg he] at h
        simp at h
    · intro h
      unfold index_documents
      rw [if_pos (List.isEmpty_iff.mpr h)]
  · intro vs meta chunks h
    unfold index_documents at h
    by_cases he : (gatherChunks docs cs co).1.isEmpty
    · rw [if_pos he] at h
      simp at h
    · rw [if_neg he] at h
      simp only [Prod.mk.injEq, Option.some.injEq] at h
      obtain ⟨hvs, hmeta, hchunks⟩ := h
      subst hvs hmeta hchunks
      refine ⟨by simp, gatherChunks_len docs cs co, ?_⟩
      intro h0
      rw [h0] at he
      simp at he

/-- Witness for C6: one two-chunk document plus one empty document. -/
theorem index_documents_sizes_witness :
    ((index_documents [("d", "a b c"), ("e", "")] 2 0 fun _ => (0 : Nat)) =
      (some [0, 0], [("d", 0), ("d", 1)], ["a b", "c"])) ∧
    ([0, 0].length = (["a b", "c"] : List String).length ∧
      ([("d", 0), ("d", 1)] : List (String × Nat)).length =
        (["a b", "c"] : List String).length ∧
      (["a b", "c"] : List String) ≠ []) ∧
    (index_documents ([("e", "  ")] : List (String × String)) 2 0 fun _ => (0 : Nat)) =
      (none, [], []) := by
  refine ⟨by decide, ?_, ?_⟩
  · exact (index_documents_sizes [("d", "a b c"), ("e", "")] 2 0 fun _ => (0 : Nat)).2
      [0, 0] [("d", 0), ("d", 1)] ["a b", "c"] (by decide)
  · exact (index_documents_sizes [("e", "  ")] 2 0 fun _ => (0 : Nat)).1.mpr (by decide)

theorem filterMap_eq_map_of_forall {α β : Type} (l : List α) (f : α → Option β)
    (g : α → β) (h : ∀ a ∈ l, f a = some (g a)) : l.filterMap f = l.map g := by
  induction l with
  | nil => rfl
  | cons a t ih =>
    rw [List.filterMap_cons, h a (by simp), List.map_cons,
      ih fun b hb => h b (by simp [hb])]

theorem mem_pyRangeStep_lt (n stride i : Nat) (hs : 1 ≤ stride)
    (hi : i ∈ pyRangeStep n stride) : i < n := by
  simp only [pyRangeStep, List.mem_map, List.mem_range] at hi
  obtain ⟨k, hk, rfl⟩ := hi
  have h1 : k + 1 ≤ (n + stride - 1) / stride := hk
  have h2 : (k + 1) * stride ≤ ((n + stride - 1) / stride) * stride :=
    Nat.mul_le_mul_right stride h1
  have h3 : ((n + stride - 1) / stride) * stride ≤ n + stride - 1 :=
    Nat.div_mul_le_self _ _
  have h4 : (k + 1) * stride = k * stride + stride := Nat.succ_mul k stride
  omega

theorem pyRangeStep_get? (n stride j : Nat) :
    (pyRangeStep n stride)[j]? =
      if j < (n + stride - 1) / stride then some (j * stride) else none := by
  simp [pyRangeStep, List.getElem?_map, List.getElem?_range]
  split <;> simp_all

theorem chunkSegs_eq_map (words : List String) (cs co : Nat) (hco : co < cs) :
    chunkSegs words cs co =
      (pyRangeStep words.length (cs - co)).map fun i => (words.drop i).take cs := by
  unfold chunkSegs
  apply filterMap_eq_map_of_forall
  intro i hi
  have hlt : i < words.length := mem_pyRangeStep_lt _ _ _ (by omega) hi
  have hpos : 0 < ((words.drop i).take cs).length := by
    rw [List.length_take, List.length_drop]
    omega
  have hne : ((words.drop i).take cs).isEmpty = false := by
    rcases hcase : (words.drop i).take cs with _ | ⟨w, ws⟩
    · rw [hcase] at hpos
      simp at hpos
    · rfl
  simp [hne]

/-- Two word lists overlap by exactly `k` words: the last `k` words of the
first equal the first `k` words of the second (both long enough). -/
def overlapsByExactly (a b : List String) (k : Nat) : Prop :=
  k ≤ a.length ∧ k ≤ b.length ∧ a.drop (a.length - k) = b.take k

instance (a b : List String) (k : Nat) : Decidable (overlapsByExactly a b k) := by
  unfold overlapsByExactly
  infer_instance

/-- **C5 counterexample**: with `chunk_size = 10`, `overlap = 8` (so
`0 ≤ overlap < chunk_size`) on a 7-word text, the chunker yields 4 chunks;
the first chunk has only 7 words, so the first and second chunks cannot
overlap by exactly 8 words even though the second chunk is not the final
one. -/
theorem chunk_overlap_counterexample :
    (chunkSegs (pyWordSplit "a b c d e f g") 10 8).length = 4 ∧
    (chunkSegs (pyWordSplit "a b c d e f g") 10 8)[0]? =
      some ["a", "b", "c", "d", "e", "f", "g"] ∧
    (chunkSegs (pyWordSplit "a b c d e f g") 10 8)[1]? =
      some ["c", "d", "e", "f", "g"] ∧
    ¬ overlapsByExactly ["a", "b", "c", "d", "e", "f", "g"] ["c", "d", "e", "f", "g"] 8 ∧
    chunk_text_words "a b c d e f g" 10 8 =
      ["a b c d e f g", "c d e f g", "e f g", "g"] := by
  decide

/-- **C5 (amended)**: for `overlap < chunk_size`, every chunk is at most
`chunk_size` words long; the chunker yields no chunks exactly when the text
has no words; and consecutive chunks overlap by exactly `overlap` words
whenever the earlier chunk has the full `chunk_size` length (near the end of
the text a shorter earlier chunk may overlap by less, which for
`overlap > chunk_size / 2` can also happen at non-final pairs). -/
theorem chunking_properties (text : String) (cs co : Nat) (hco : co < cs) :
    (∀ c ∈ chunkSegs (pyWordSplit text) cs co, c.length ≤ cs) ∧
    (chunk_text_words text cs co = [] ↔ pyWordSplit text = []) ∧
    (chunk_text_words text cs co).length = (chunkSegs (pyWordSplit text) cs co).length ∧
    (∀ j a b, (chunkSegs (pyWordSplit text) cs co)[j]? = some a →
      (chunkSegs (pyWordSplit text) cs co)[j + 1]? = some b →
      a.length = cs → overlapsByExactly a b co) := by
  have hst : 1 ≤ cs - co := by omega
  refine ⟨?_, ?_, by simp [chunk_text_words], ?_⟩
  · intro c hc
    rw [chunkSegs_eq_map _ _ _ hco] at hc
    simp only [List.mem_map] at hc
    obtain ⟨i, _, rfl⟩ := hc
    simp [List.length_take]
  · unfold chunk_text_words
    rw [List.map_eq_nil_iff, chunkSegs_eq_map _ _ _ hco, List.map_eq_nil_iff]
    constructor
    · intro h
      by_contra hw
      have hlen : 1 ≤ (pyWordSplit text).length := by
        rcases hsplit : pyWordSplit text with _ | ⟨w, ws⟩
        · exact absurd hsplit hw
        · simp
      have : 1 ≤ ((pyWordSplit text).length + (cs - co) - 1) / (cs - co) := by
        rw [Nat.one_le_div_iff (by omega)]
        omega
      have hmem : (0 : Nat) ∈ pyRangeStep (pyWordSplit text).length (cs - co) := by
        simp only [pyRangeStep, List.mem_map, List.mem_range]
        exact ⟨0, by omega, by simp⟩
      rw [h] at hmem
      simp at hmem
    · intro h
      rw [h]
      have h0 : (cs - co - 1) / (cs - co) = 0 := Nat.div_eq_of_lt (by omega)
      simp [pyRangeStep, h0]
  · intro j a b ha hb hlen
    rw [chunkSegs_eq_map _ _ _ hco] at ha hb
    rw [List.getElem?_map, pyRangeStep_get?] at ha hb
    by_cases hj : j < ((pyWordSplit text).length + (cs - co) - 1) / (cs - co)
    · rw [if_pos hj] at ha
      by_cases hj1 : j + 1 < ((pyWordSplit text).length + (cs - co) - 1) / (cs - co)
      · rw [if_pos hj1] at hb
        simp only [Option.map_some', Option.some.injEq] at ha hb
        subst ha hb
        have hn : cs ≤ (pyWordSplit text).length - j * (cs - co) := by
          have := congrArg id hlen
          rw [List.length_take, List.length_drop] at hlen
          omega
        have hmul : (j + 1) * (cs - co) = j * (cs - co) + (cs - co) :=
          Nat.succ_mul j (cs - co)
        refine ⟨by omega, ?_, ?_⟩
        · rw [List.length_take, List.length_drop, hmul]
          have : cs - co ≤ cs := by omega
          rw [Nat.le_min]
          omega
        · rw [hlen]
          rw [List.drop_take, List.take_take, List.drop_drop]
          have e1 : cs - (cs - co) = co := by omega
          have e2 : min co cs = co := by omega
          rw [e1, e2, ← hmul]
      · rw [if_neg hj1] at hb
        exact absurd hb (by simp)
    · rw [if_neg hj] at ha
      exact absurd ha (by simp)

/-- Witness for C5 (amended) at `chunk_size = 3`, `overlap = 1` on a 5-word
text: chunks `[a b c] [c d e] [e]`, with the full-length first pair
overlapping by exactly one word. -/
theorem chunking_properties_witness :
    (∀ c ∈ chunkSegs (pyWordSplit "a b c d e") 3 1, c.length ≤ 3) ∧
    (chunk_text_words "a b c d e" 3 1 = [] ↔ pyWordSplit "a b c d e" = []) ∧
    (chunk_text_words "a b c d e" 3 1).length =
      (chunkSegs (pyWordSplit "a b c d e") 3 1).length ∧
    overlapsByExactly ["a", "b", "c"] ["c", "d", "e"] 1 := by
  have h := chunking_properties "a b c d e" 3 1 (by omega)
  refine ⟨h.1, h.2.1, h.2.2.1, ?_⟩
  exact h.2.2.2 0 ["a", "b", "c"] ["c", "d", "e"] (by decide) (by decide) (by decide)

/-- Whether processing one array element raises the uncaught
`AttributeError` (a non-dict element, or a truthy non-string fed to a
coercer). -/
def itemCrashes (i : JValue) : Bool :=
  match processItem i with
  | .error _ => true
  | .ok _ => false

/-- The validated record an element contributes, if any (`none` both for a
skipped `ValidationError` element and — unused below — a crashing one). -/
def validatedItem (i : JValue) : Option InherentRisk :=
  match processItem i with
  | .ok r => r
  | .error _ => none

theorem processItems_ok (items : List JValue)
    (h : ∀ i ∈ items, itemCrashes i = false) :
    processItems items = .ok (items.filterMap validatedItem) := by
  induction items with
  | nil => rfl
  | cons i rest ih =>
    have hi : itemCrashes i = false := h i (by simp)
    have hrest := ih fun j hj => h j (by simp [hj])
    rw [List.filterMap_cons]
    cases hp : processItem i with
    | error e =>
      rw [itemCrashes, hp] at hi
      simp at hi
    | ok r =>
      cases r with
      | none =>
        simp [processItems, hp, hrest, validatedItem, Bind.bind, Except.bind, Pure.pure, Except.pure]
      | some risk =>
        simp [processItems, hp, hrest, validatedItem, Bind.bind, Except.bind, Pure.pure, Except.pure]

/-- **C8**: a response that is not JSON after fence-stripping, or whose
top-level value is not an array, is a hard error for the whole extraction
call; an individual element failing record validation is skipped while the
remaining elements are still returned, in order. -/
theorem parse_risks_error_handling :
    (∀ (loads : String → Option JValue) (raw : String),
      loads (stripFence raw) = none →
      parse_risks_response loads raw =
        .error ("Response was not valid JSON.\n\nRaw text:\n" ++ stripFence raw)) ∧
    (∀ (loads : String → Option JValue) (raw : String) (v : JValue),
      loads (stripFence raw) = some v → (match v with | .arr _ => false | _ => true) = true →
      parse_risks_response loads raw = .error "Expected a JSON array") ∧
    (∀ (loads : String → Option JValue) (raw : String) (items : List JValue),
      loads (stripFence raw) = some (.arr items) →
      items.all (fun i => !itemCrashes i) = true →
      parse_risks_response loads raw = .ok (items.filterMap validatedItem)) := by
  refine ⟨?_, ?_, ?_⟩
  · intro loads raw h
    simp [parse_risks_response, h]
  · intro loads raw v h hv
    cases v with
    | arr xs => simp at hv
    | null => simp [parse_risks_response, h]
    | bool b => simp [parse_risks_response, h]
    | num n => simp [parse_risks_response, h]
    | str s => simp [parse_risks_response, h]
    | obj fs => simp [parse_risks_response, h]
  · intro loads raw items h hall
    have hnc : ∀ i ∈ items, itemCrashes i = false := by
      intro i hi
      have := List.all_eq_true.mp hall i hi
      simpa using this
    simp [parse_risks_response, h, processItems_ok items hnc]

/-- Witness for C8: a non-JSON response, a non-array response, and a
two-element array whose second element fails validation (missing
`risk_type`) while the first is returned with its derived `SR` flag. -/
theorem parse_risks_error_handling_witness :
    parse_risks_response (fun _ => none) "nonsense" =
      .error ("Response was not valid JSON.\n\nRaw text:\n" ++ stripFence "nonsense") ∧
    parse_risks_response (fun _ => some (.obj [])) "x" = .error "Expected a JSON array" ∧
    parse_risks_response
        (fun _ => some (.arr
          [ .obj [("risk_type", .str "fraud"), ("Likelihood", .str "High"),
              ("Material Quantitative Impact?", .str "very high"),
              ("Fraud Risk Factor?", .str "yes")],
            .obj [] ]))
        "x" =
      .ok [{ risk_type := "fraud", Fraud_Risk_Factor := "Yes",
             Internal_Controls := "Not provided", Likelihood := "High",
             Likelihood_Explanation := "Not provided",
             Material_Quantitative_Impact := "High",
             Impact_Explanation := "Not provided", Conclusion := "Not provided",
             SR := "SR" }] := by
  refine ⟨?_, ?_, ?_⟩
  · exact parse_risks_error_handling.1 (fun _ => none) "nonsense" rfl
  · exact parse_risks_error_handling.2.1 (fun _ => some (.obj [])) "x" (.obj []) rfl rfl
  · have := parse_risks_error_handling.2.2
      (fun _ => some (.arr
        [ .obj [("risk_type", .str "fraud"), ("Likelihood", .str "High"),
            ("Material Quantitative Impact?", .str "very high"),
            ("Fraud Risk Factor?", .str "yes")],
          .obj [] ]))
      "x"
      [ .obj [("risk_type", .str "fraud"), ("Likelihood", .str "High"),
          ("Material Quantitative Impact?", .str "very high"),
          ("Fraud Risk Factor?", .str "yes")],
        .obj [] ]
      rfl (by decide)
    rw [this]
    rfl

/-- Split a character list into its lines at newline characters. -/
def splitNL : List Char → List (List Char)
  | [] => [[]]
  | '\n' :: rest => [] :: splitNL rest
  | c :: rest =>
    match splitNL rest with
    | l :: ls => (c :: l) :: ls
    | [] => [[c]]

/-- Re-join lines with newline characters. -/
def joinNL (lines : List (List Char)) : List Char :=
  List.intercalate ['\n'] lines

/-- Modelled from the spec: split the text into `(main_answer, sources)` at
the first `[1]`-prefixed line; the stripped text before that line and the
stripped remainder from it; if no such line occurs, the whole text and the
empty string. -/
def specSplitSources (t : String) : String × String :=
  let lines := splitNL t.data
  match lines.findIdx? (fun l => ("[1]".data).isPrefixOf l) with
  | none => (t, "")
  | some j =>
    (pyStrip (String.mk (joinNL (lines.take j))),
     pyStrip (String.mk (joinNL (lines.drop j))))

/-- **C9 counterexample**: on a reply whose very first line is
`[1]`-prefixed, the claim's split puts everything into `sources`, but the
code (which looks for the substring `"\n[1]"`) returns the whole text as
`main_answer` with empty `sources`. -/
theorem rag_split_counterexample :
    rag_split_response "[1] x" = ("[1] x", "") ∧
    specSplitSources "[1] x" = ("", "[1] x") ∧
    (splitNL ("[1] x").data).any (fun l => ("[1]".data).isPrefixOf l) = true := by
  refine ⟨rfl, rfl, rfl⟩

theorem findSubAux_some (pat : List Char) :
    ∀ (l : List Char) (k i : Nat), findSubAux pat l k = some i →
      k ≤ i ∧ pat.isPrefixOf (l.drop (i - k)) = true ∧
      ∀ j, k ≤ j → j < i → pat.isPrefixOf (l.drop (j - k)) = false := by
  intro l
  induction l with
  | nil =>
    intro k i h
    rw [findSubAux] at h
    by_cases he : pat.isEmpty
    · rw [if_pos he] at h
      cases h
      refine ⟨le_refl _, ?_, ?_⟩
      · cases pat with
        | nil => simp
        | cons c t => simp at he
      · intro j h1 h2
        omega
    · rw [if_neg he] at h
      cases h
  | cons c t ih =>
    intro k i h
    rw [findSubAux] at h
    by_cases hpre : pat.isPrefixOf (c :: t) = true
    · rw [if_pos hpre] at h
      cases h
      exact ⟨le_refl _, by simpa using hpre, fun j h1 h2 => by omega⟩
    · rw [if_neg hpre] at h
      obtain ⟨h1, h2, h3⟩ := ih (k + 1) i h
      refine ⟨by omega, ?_, ?_⟩
      · have : i - k = (i - (k + 1)) + 1 := by omega
        rw [this, List.drop_succ_cons]
        exact h2
      · intro j hj1 hj2
        by_cases hjk : j = k
        · subst hjk
          simp only [Nat.sub_self, List.drop_zero]
          exact Bool.eq_false_iff.mpr hpre
        · have : j - k = (j - (k + 1)) + 1 := by omega
          rw [this, List.drop_succ_cons]
          exact h3 j (by omega) hj2

theorem findSubAux_none (pat : List Char) :
    ∀ (l : List Char) (k : Nat), findSubAux pat l k = none →
      ∀ j, pat.isPrefixOf (l.drop j) = false := by
  intro l
  induction l with
  | nil =>
    intro k h j
    rw [findSubAux] at h
    by_cases he : pat.isEmpty
    · rw [if_pos he] at h
      cases h
    · rw [if_neg he] at h
      cases pat with
      | nil => simp at he
      | cons c t => simp
  | cons c t ih =>
    intro k h j
    rw [findSubAux] at h
    by_cases hpre : pat.isPrefixOf (c :: t) = true
    · rw [if_pos hpre] at h
      cases h
    · rw [if_neg hpre] at h
      cases j with
      | zero =>
        simp only [List.drop_zero]
        exact Bool.eq_false_iff.mpr hpre
      | succ m =>
        rw [List.drop_succ_cons]
        exact ih (k + 1) h m

/-- After stripping, a character list that begins `'\n' '[' '1' ']'` keeps
`"[1]"` as a prefix. -/
theorem strip_newline_bracket (rest : List Char) :
    ("[1]".data).isPrefixOf (stripChars ('\n' :: '[' :: '1' :: ']' :: rest)) = true := by
  unfold stripChars
  rw [show ('\n' :: '[' :: '1' :: ']' :: rest).dropWhile Char.isWhitespace
      = '[' :: '1' :: ']' :: rest from rfl]
  rw [show ('[' :: '1' :: ']' :: rest).reverse = rest.reverse ++ [']', '1', '['] from by
    simp]
  rw [List.dropWhile_append]
  by_cases he : (rest.reverse.dropWhile Char.isWhitespace).isEmpty
  · rw [if_pos he]
    rfl
  · rw [if_neg he]
    rw [List.isPrefixOf_iff_prefix]
    rw [List.reverse_append]
    exact ⟨(rest.reverse.dropWhile Char.isWhitespace).reverse, by simp⟩

/-- **C9 (amended)**: the RAG reply is split at the first occurrence of the
substring `"\n[1]"` — i.e. at the first `[1]`-prefixed line other than the
first line: `main_answer` is the stripped text before it and `sources` the
stripped remainder, which starts with `"[1]"`; when no such occurrence
exists (including a reply whose first line starts with `"[1]"`),
`main_answer` is the whole stripped text and `sources` is empty. -/
theorem rag_split_amended (content : String) :
    (findSub (pyStrip content).data ("\n[1]".data) = none →
      (∀ j, ("\n[1]".data).isPrefixOf ((pyStrip content).data.drop j) = false) ∧
      rag_split_response content = (pyStrip content, "")) ∧
    (∀ i, findSub (pyStrip content).data ("\n[1]".data) = some i →
      ("\n[1]".data).isPrefixOf ((pyStrip content).data.drop i) = true ∧
      (∀ j, j < i → ("\n[1]".data).isPrefixOf ((pyStrip content).data.drop j) = false) ∧
      rag_split_response content =
        (pyStrip (String.mk ((pyStrip content).data.take i)),
         pyStrip (String.mk ((pyStrip content).data.drop i))) ∧
      ("[1]".data).isPrefixOf
        (pyStrip (String.mk ((pyStrip content).data.drop i))).data = true) := by
  constructor
  · intro h
    refine ⟨findSubAux_none _ _ 0 h, ?_⟩
    unfold rag_split_response splitAnswer
    rw [show ("\n[1]".data) = ['\n', '[', '1', ']'] from rfl] at h
    rw [h]
  · intro i h
    obtain ⟨-, h2, h3⟩ := findSubAux_some ("\n[1]".data) (pyStrip content).data 0 i h
    simp only [Nat.sub_zero] at h2 h3
    refine ⟨h2, fun j hj => by simpa using h3 j (by omega) hj, ?_, ?_⟩
    · unfold rag_split_response splitAnswer
      rw [show ("\n[1]".data) = ['\n', '[', '1', ']'] from rfl] at h
      rw [h]
    · rw [List.isPrefixOf_iff_prefix] at h2
      obtain ⟨tail, htail⟩ := h2
      rw [show (pyStrip (String.mk ((pyStrip content).data.drop i))).data
          = stripChars ((pyStrip content).data.drop i) from rfl]
      rw [← htail]
      exact strip_newline_bracket tail

/-- Witness for C9 (amended): a reply with a sources block after the main
answer, and a reply with no later `[1]` line. -/
theorem rag_split_amended_witness :
    rag_split_response "  main answer \n[1] http fff  " =
      ("main answer", "[1] http fff") ∧
    ("[1]".data).isPrefixOf ("[1] http fff").data = true ∧
    rag_split_response "plain answer" = ("plain answer", "") := by
  refine ⟨?_, rfl, ?_⟩
  · have h := (rag_split_amended "  main answer \n[1] http fff  ").2 12 (by decide)
    rw [h.2.2.1]
    rfl
  · have h := (rag_split_amended "plain answer").1 (by rfl)
    rw [h.2]
    rfl

end RSM
